import Mathlib

/-!
Verification of the snapshot-diffing and incremental-persistence engine of the
gaming-invest-bot repository, as a shallow embedding in Lean 4.

The embedded code:
* `fi_blankning.py`: `update_position_holders`, `update_database_diff`,
  `is_timestamp_updated`, and the main loop `update_fi_from_web`;
* `general_utils.py`: the `aiohttp_retry` decorator (its backoff-delay formula
  and its retry loop);
* `steam.py`: `update_steam_top_sellers` (row assembly and the hourly
  write-dedupe gate).

Modelling conventions: pandas float columns become `ℚ`; date columns appear in
their compared string form (`strftime` output); database timestamps used only
for ordering become `ℤ`; stateful code becomes pure functions returning the new
state plus a list of observable effects.
-/

namespace GamingInvestBot

/-- `dropDupKeepLast key l` keeps, for each key, the last row of `l` carrying
that key, preserving the relative order of the kept rows.  This mirrors
`DataFrame.drop_duplicates(cols, keep='last')` in `fi_blankning.py` lines
311-313 (and 441-443). -/
def dropDupKeepLast {α κ : Type} (key : α → κ) [DecidableEq κ] : List α → List α
  | [] => []
  | a :: rest =>
    if rest.any (fun b => decide (key b = key a)) then dropDupKeepLast key rest
    else a :: dropDupKeepLast key rest

/-- First row of `l` whose key is `k`.  On a key-deduplicated list this is the
row-per-key lookup that `pd.merge(..., on=merge_cols)` performs. -/
def findKey {α κ : Type} (key : α → κ) [DecidableEq κ] (l : List α) (k : κ) : Option α :=
  l.find? (fun a => decide (key a = k))

/-- One row of the individual-positions dataset (`PositionHolders`): the column
shape produced by `read_current_data` in `fi_blankning.py` (lines 121-146),
with `position_date` in its compared `%Y-%m-%d` string form. -/
structure HolderRec where
  entity_name : String
  issuer_name : String
  isin : String
  position_percent : ℚ
  position_date : String
deriving DecidableEq

/-- The merge key of `update_position_holders`:
`['entity_name', 'issuer_name', 'isin']` (line 317). -/
def holderKey (r : HolderRec) : String × String × String :=
  (r.entity_name, r.issuer_name, r.isin)

/-- A row of the batch inserted into `PositionHolders`: a `HolderRec` plus the
cycle timestamp string column added at line 286 / 358. -/
structure HolderChange extends HolderRec where
  timestamp : String
deriving DecidableEq

/-- `DataFrame.round({'position_percent': 5})` (line 379): rounding a rational
to the nearest multiple of `1 / 100000`. -/
def round5 (q : ℚ) : ℚ := (round (q * 100000) : ℚ) / 100000

/-- The changed-row test of `update_position_holders` lines 331-336: the
absolute percentage difference exceeds `0.0001`, or the compared date strings
differ.  (This test sits after the `KeyError` of line 322 and is therefore
never executed; see `update_position_holders` below.) -/
def holderChanged (r o : HolderRec) : Bool :=
  decide (1 / 10000 < |r.position_percent - o.position_percent| ∨
    r.position_date ≠ o.position_date)

/-- The three change sets and the final insert batch that the tail of
`update_position_holders` (lines 313-379) would produce. -/
structure HolderDiff where
  newPositions : List HolderRec
  changedPositions : List HolderRec
  droppedPositions : List HolderRec
  newRows : List HolderChange
deriving DecidableEq

/-- The diff computed by the tail of `update_position_holders`
(`fi_blankning.py` lines 313-379) — the code past the `KeyError` that line 322
raises, which execution never reaches (see `update_position_holders` below for
the executed behaviour).  It is kept here because it is the evidently intended
algorithm: the new-positions selection of line 322 is read as taking the
new-side rows (the `_new`-suffixed percent column, exactly as the
changed-positions selection at line 341 does).  Inputs are in canonical form:
`oldLatest` is the latest-known row per key (the result of the
sort-by-timestamp plus `drop_duplicates(keep='last')` of line 311), and
`newData0` the rows read from the fetched file.  Steps: deduplication of the
new data (line 313), the left-only merge giving new positions (lines 320-322),
the inner merge plus `holderChanged` test giving changed positions (lines
327-343), the dropped positions with the `position_percent > 0.0` filter,
percent forced to `0` and the cycle timestamp (lines 347-363), and the
concatenated, percent-rounded insert batch (lines 375-379). -/
def position_holders_diff_tail (oldLatest : List HolderRec) (newData0 : List HolderRec)
    (fetchedTs : String) : HolderDiff :=
  let current := dropDupKeepLast holderKey newData0
  let newPositions := current.filter
    (fun r => (findKey holderKey oldLatest (holderKey r)).isNone)
  let changedPositions := current.filterMap (fun r =>
    (findKey holderKey oldLatest (holderKey r)).bind
      (fun o => if holderChanged r o then some r else none))
  let droppedPositions := (oldLatest.filter (fun o =>
      (findKey holderKey current (holderKey o)).isNone &&
        decide ((0 : ℚ) < o.position_percent))).map
    (fun o => { o with position_percent := 0 })
  { newPositions := newPositions
    changedPositions := changedPositions
    droppedPositions := droppedPositions
    newRows := (newPositions ++ changedPositions ++ droppedPositions).map
      (fun r => { toHolderRec := { r with position_percent := round5 r.position_percent },
                  timestamp := fetchedTs }) }

/-- One row of the aggregated dataset (`ShortPositions`): the column shape
produced by `read_aggregate_data` (`fi_blankning.py` lines 88-106), with
`latest_position_date` in its compared `%Y-%m-%d` string form. -/
structure AggRec where
  company_name : String
  lei : String
  position_percent : ℚ
  latest_position_date : String
deriving DecidableEq

/-- The merge key of `update_database_diff`: `['lei', 'company_name']`
(line 446). -/
def aggKey (r : AggRec) : String × String := (r.lei, r.company_name)

/-- A row of the batch inserted into `ShortPositions`. -/
structure AggChange extends AggRec where
  timestamp : String
deriving DecidableEq

/-- The changed-row test of `update_database_diff` lines 457-462 (like the
holder test, unreachable behind the `KeyError` of line 451). -/
def aggChanged (r o : AggRec) : Bool :=
  decide (1 / 10000 < |r.position_percent - o.position_percent| ∨
    r.latest_position_date ≠ o.latest_position_date)

/-- The change sets and insert batch that the tail of `update_database_diff`
(lines 443-494) would produce.  Note it builds no dropped set at all (lines
472-482 concatenate only `new_leis` and `changed_positions`). -/
structure AggDiff where
  newLeis : List AggRec
  changedPositions : List AggRec
  newRows : List AggChange
deriving DecidableEq

/-- The diff computed by the tail of `update_database_diff` (`fi_blankning.py`
lines 443-494) — the code past the `KeyError` that line 451 raises, which
execution never reaches (see `update_database_diff` below).  Kept, like
`position_holders_diff_tail`, as the evidently intended algorithm; inputs in
canonical form as there. -/
def database_diff_tail (oldLatest : List AggRec) (newData0 : List AggRec)
    (fetchedTs : String) : AggDiff :=
  let current := dropDupKeepLast aggKey newData0
  let newLeis := current.filter
    (fun r => (findKey aggKey oldLatest (aggKey r)).isNone)
  let changedPositions := current.filterMap (fun r =>
    (findKey aggKey oldLatest (aggKey r)).bind
      (fun o => if aggChanged r o then some r else none))
  { newLeis := newLeis
    changedPositions := changedPositions
    newRows := (newLeis ++ changedPositions).map
      (fun r => { toAggRec := { r with position_percent := round5 r.position_percent },
                  timestamp := fetchedTs }) }

/-- The pandas exception the FI diff functions raise:
`KeyError: ['position_percent'] not in index`. -/
inductive PandasError where
  | keyErrorPositionPercent
deriving DecidableEq

/-- `update_position_holders(old_data, new_data, db, fetched_timestamp, bot)`
(`fi_blankning.py` lines 265-393) as executed.  If the new data is empty the
function returns immediately with an empty frame and nothing is inserted
(lines 267-269).  Otherwise it reaches line 320, where `pd.merge` finds the
non-key column `position_percent` in both frames and renames it to
`position_percent_new` / `position_percent_old`; the selection
`merged_new[...][new_data.columns]` at line 322 then asks for the unsuffixed
`position_percent`, which no longer exists, and pandas raises
`KeyError: ['position_percent'] not in index` — before the changed test
(lines 331-336), the dropped computation (lines 347-363) and the insert
(line 387).  The result is the batch of rows handed to `insert_bulk_data`:
`Except.ok` rows on a completed run, `Except.error` when the exception
propagates to the caller.  The diff itself (lines 313-379) is unreachable;
it is modelled separately as `position_holders_diff_tail`. -/
def update_position_holders (oldLatest : List HolderRec) (newData0 : List HolderRec)
    (fetchedTs : String) : Except PandasError (List HolderChange) :=
  if newData0.isEmpty then Except.ok []
  else Except.error PandasError.keyErrorPositionPercent

/-- `update_database_diff(old_data, new_data, db, fetched_timestamp, bot)`
(`fi_blankning.py` lines 397-494) as executed: the empty-new-data early return
of lines 399-401, and otherwise the same merge-suffix collision — line 449
suffixes `position_percent`, line 451 selects `new_data.columns` — raising
`KeyError` before any row is built or inserted.  The unreachable diff
(lines 443-494) is modelled separately as `database_diff_tail`. -/
def update_database_diff (oldLatest : List AggRec) (newData0 : List AggRec)
    (fetchedTs : String) : Except PandasError (List AggChange) :=
  if newData0.isEmpty then Except.ok []
  else Except.error PandasError.keyErrorPositionPercent

/-- Applying a batch of change records to the latest-known state: each emitted
row becomes the new latest value for its key; keys not touched keep their old
row.  This is the per-key effect of inserting the batch into the append-only
store and re-deriving the latest row per key. -/
def applyChanges (oldLatest : List HolderRec) (out : List HolderChange) : List HolderRec :=
  let outRecs := out.map (fun c => c.toHolderRec)
  outRecs ++ oldLatest.filter (fun o => (findKey holderKey outRecs (holderKey o)).isNone)

/-- The backoff delay of `aiohttp_retry` (`general_utils.py` line 72):
`min(max_delay, base_delay * 2 ** attempt) * (0.5 + random.random())`, with the
draw of `random.random()` (a value in `[0, 1)`) passed in as `jitter`. -/
def backoff_delay (base_delay max_delay : ℚ) (attempt : ℕ) (jitter : ℚ) : ℚ :=
  min max_delay (base_delay * 2 ^ attempt) * (1 / 2 + jitter)

/-- The retry loop of `aiohttp_retry` (`general_utils.py` lines 64-75), run
against a schedule of attempt outcomes: `outcomes i = none` means the `i`-th
call of the wrapped coroutine raises a transient `aiohttp` client error,
`outcomes i = some v` means it returns `v`.  The first argument of `retryGo` is
the current attempt index, the second the number of loop iterations left;
when the iterations are exhausted the final call of line 75 runs, whose
exception (if any) propagates.  Re-raising the last exception (lines 68-69) is
`Except.error ()`. -/
def retryGo {α : Type} (outcomes : ℕ → Option α) (attempt : ℕ) : ℕ → Except Unit α
  | 0 =>
    match outcomes attempt with
    | some v => Except.ok v
    | none => Except.error ()
  | remaining + 1 =>
    match outcomes attempt with
    | some v => Except.ok v
    | none =>
      if remaining = 0 then Except.error ()
      else retryGo outcomes (attempt + 1) remaining

/-- `aiohttp_retry(retries, ...)` applied to a coroutine whose successive call
outcomes are `outcomes`: `Except.error ()` is the wrapper re-raising the last
transient error to its caller. -/
def retryRun {α : Type} (retries : ℕ) (outcomes : ℕ → Option α) : Except Unit α :=
  retryGo outcomes 0 retries

/-- `is_timestamp_updated(session)` (`fi_blankning.py` lines 497-532) as a
function of the locally stored marker (`none` when
`last_known_timestamp.txt` is missing) and of the fetched web timestamp.
`fetched` is the first result of `fetch_last_update_time` that is not the
sentinel `some "0001-01-01 00:00"`: the inner while-loop (lines 508-516) only
re-fetches while the sentinel is returned, performs no writes, and exits with
exactly that first non-sentinel result (or returns `None` on a failed fetch),
so it folds into this parameter.  Returns (result, new stored marker): on a
changed timestamp the marker file is written (line 530) before the result is
returned, i.e. before the caller downloads or processes anything. -/
def is_timestamp_updated (stored fetched : Option String) : Option String × Option String :=
  match fetched with
  | none => (none, stored)
  | some t => if stored = some t then (none, stored) else (some t, some t)

/-- Observable effects of one iteration of the `update_fi_from_web` loop. -/
inductive FiEff where
  | gateCheck
  | download
  | normalizeEff
  | dbReadEff
  | diffEff
  | persistEff
  | notifyEff
  | sleepEff
deriving DecidableEq

/-- Where (if anywhere) the body of one loop iteration raises:
`atDownload` = `download_file`, `atRead` = reading the fetched files returns
empty data, `atDbRead` = `pd.read_sql` on the old data fails, `atProcess` =
`send_embed` (diff, persist, notify) raises. -/
inductive FailPoint where
  | ok
  | atDownload
  | atRead
  | atDbRead
  | atProcess
deriving DecidableEq

/-- Environment of one loop iteration: the fetched web timestamp (as for
`is_timestamp_updated`), the failure point of the body, and whether an
external `asyncio.CancelledError` arrives this iteration. -/
structure CycleEnv where
  fetched : Option String
  fail : FailPoint
  cancelled : Bool
deriving DecidableEq

/-- Whether the loop continues with another iteration or exits. -/
inductive LoopOutcome where
  | again
  | stopped
deriving DecidableEq

/-- One iteration of the `while True` loop of `update_fi_from_web`
(`fi_blankning.py` lines 615-674): returns the stored marker afterwards, the
effects performed, and whether the loop continues.  A cancellation breaks the
loop (lines 666-668); every other exception is caught, reported and followed
by a sleep and the next iteration (lines 669-674).  When
`is_timestamp_updated` reports no update the iteration only sleeps
(lines 621-625); otherwise files are downloaded (lines 629-630), read
(lines 634-642), the old data is read from the database (lines 647-655) and
`send_embed` diffs, persists and notifies (line 659), with each failure point
cutting the effect list short. -/
def fi_cycle (stored : Option String) (env : CycleEnv) :
    Option String × List FiEff × LoopOutcome :=
  if env.cancelled then (stored, [], LoopOutcome.stopped)
  else
    let res := is_timestamp_updated stored env.fetched
    match res.1 with
    | none => (res.2, [FiEff.gateCheck, FiEff.sleepEff], LoopOutcome.again)
    | some _ =>
      match env.fail with
      | FailPoint.atDownload =>
        (res.2, [FiEff.gateCheck, FiEff.download, FiEff.sleepEff], LoopOutcome.again)
      | FailPoint.atRead =>
        (res.2, [FiEff.gateCheck, FiEff.download, FiEff.normalizeEff, FiEff.sleepEff],
          LoopOutcome.again)
      | FailPoint.atDbRead =>
        (res.2, [FiEff.gateCheck, FiEff.download, FiEff.normalizeEff, FiEff.dbReadEff,
          FiEff.sleepEff], LoopOutcome.again)
      | FailPoint.atProcess =>
        (res.2, [FiEff.gateCheck, FiEff.download, FiEff.normalizeEff, FiEff.dbReadEff,
          FiEff.diffEff, FiEff.sleepEff], LoopOutcome.again)
      | FailPoint.ok =>
        (res.2, [FiEff.gateCheck, FiEff.download, FiEff.normalizeEff, FiEff.dbReadEff,
          FiEff.diffEff, FiEff.persistEff, FiEff.notifyEff, FiEff.sleepEff], LoopOutcome.again)

/-- Metadata of one top-seller entry collected in phase 1 of
`update_steam_top_sellers` (`steam.py` lines 208-222). -/
structure PrelimGame where
  rank : ℕ
  appid : String
  title : String
  discount : String
deriving DecidableEq

/-- One row of the `SteamTopGames` store.  Timestamps of this table are wall
clock hours (`datetime.now().strftime('%Y-%m-%d %H')` and the matching
`strptime`); since that format is a fixed-width order-isomorphic encoding of
whole hours, they are modelled as hour counts in `ℤ`. -/
structure SteamGame where
  timestamp : ℤ
  count : ℕ
  appid : String
  title : String
  discount : String
  ccu : ℕ
deriving DecidableEq

/-- Phase 4 of `update_steam_top_sellers` (`steam.py` lines 243-255): each
preliminary entry becomes a row stamped with the current wall-clock hour
`nowHour` and carrying the fetched concurrent-user count. -/
def assembleGames (nowHour : ℤ) (prelim : List PrelimGame) (ccuMap : String → ℕ) :
    List SteamGame :=
  prelim.map (fun g =>
    { timestamp := nowHour, count := g.rank, appid := g.appid, title := g.title,
      discount := g.discount, ccu := ccuMap g.appid })

/-- `Database.get_latest_timestamp('SteamTopGames')` (`database.py` lines
93-99): `SELECT MAX(timestamp)`, `none` on an empty table. -/
def get_latest_timestamp (store : List SteamGame) : Option ℤ :=
  (store.map (fun g => g.timestamp)).max?

/-- `update_steam_top_sellers(db, write_db)` (`steam.py` lines 179-270) as a
function of the stored table, the current wall-clock hour, the phase-1
metadata and the phase-3 CCU results.  Returns (table afterwards, returned
games list).  The latest stored timestamp is read at the start (line 183); an
empty phase-1 result returns early (lines 226-228); rows are assembled in
phase 4; phase 5 skips the insert when the latest stored timestamp is less
than one hour before the current hour (lines 258-260) and otherwise bulk
inserts when `write_db` is set (lines 262-267). -/
def update_steam_top_sellers (store : List SteamGame) (nowHour : ℤ)
    (prelim : List PrelimGame) (ccuMap : String → ℕ) (writeDb : Bool) :
    List SteamGame × List SteamGame :=
  let latest := get_latest_timestamp store
  if prelim.isEmpty then (store, [])
  else
    let games := assembleGames nowHour prelim ccuMap
    match latest with
    | some l =>
      if nowHour - l < 1 then (store, games)
      else if writeDb && !games.isEmpty then (store ++ games, games) else (store, games)
    | none =>
      if writeDb && !games.isEmpty then (store ++ games, games) else (store, games)

section ListLemmas

variable {α κ : Type} (key : α → κ) [DecidableEq κ]

lemma mem_of_mem_dropDupKeepLast {l : List α} {a : α}
    (h : a ∈ dropDupKeepLast key l) : a ∈ l := by
  induction l with
  | nil => simp [dropDupKeepLast] at h
  | cons b rest ih =>
    simp only [dropDupKeepLast] at h
    split at h
    · exact List.mem_cons_of_mem _ (ih h)
    · rcases List.mem_cons.mp h with h | h
      · exact h ▸ List.mem_cons_self _ _
      · exact List.mem_cons_of_mem _ (ih h)

lemma keys_dropDupKeepLast {l : List α} {k : κ} :
    k ∈ (dropDupKeepLast key l).map key ↔ k ∈ l.map key := by
  induction l with
  | nil => simp [dropDupKeepLast]
  | cons b rest ih =>
    simp only [dropDupKeepLast]
    split
    next h =>
      simp only [List.map_cons, List.mem_cons, ih]
      constructor
      · exact Or.inr
      · rintro (rfl | hk)
        · rcases List.any_eq_true.mp h with ⟨c, hc, hkey⟩
          exact List.mem_map.mpr ⟨c, hc, of_decide_eq_true hkey⟩
        · exact hk
    next h => simp [ih]

lemma nodup_keys_dropDupKeepLast (l : List α) :
    ((dropDupKeepLast key l).map key).Nodup := by
  induction l with
  | nil => simp [dropDupKeepLast]
  | cons b rest ih =>
    simp only [dropDupKeepLast]
    split
    next => exact ih
    next h =>
      simp only [List.map_cons, List.nodup_cons]
      refine ⟨fun hk => h ?_, ih⟩
      rw [keys_dropDupKeepLast] at hk
      rcases List.mem_map.mp hk with ⟨c, hc, hkey⟩
      exact List.any_eq_true.mpr ⟨c, hc, decide_eq_true hkey⟩

lemma findKey_eq_none {l : List α} {k : κ} :
    findKey key l k = none ↔ ∀ a ∈ l, key a ≠ k := by
  simp [findKey, List.find?_eq_none]

lemma findKey_mem {l : List α} {k : κ} {a : α} (h : findKey key l k = some a) :
    a ∈ l ∧ key a = k := by
  rw [findKey] at h
  have hp := List.find?_some h
  exact ⟨List.mem_of_find?_eq_some h, of_decide_eq_true hp⟩

lemma findKey_isSome_of_mem {l : List α} {a : α} (h : a ∈ l) :
    (findKey key l (key a)).isSome := by
  rw [findKey, List.find?_isSome]
  exact ⟨a, h, decide_eq_true rfl⟩

lemma eq_of_nodup_keys {l : List α} (hnd : (l.map key).Nodup) {a b : α}
    (ha : a ∈ l) (hb : b ∈ l) (hk : key a = key b) : a = b :=
  List.inj_on_of_nodup_map hnd ha hb hk

lemma findKey_eq_some_self {l : List α} (hnd : (l.map key).Nodup) {a : α} (ha : a ∈ l) :
    findKey key l (key a) = some a := by
  rcases Option.isSome_iff_exists.mp (findKey_isSome_of_mem key ha) with ⟨b, hb⟩
  rcases findKey_mem key hb with ⟨hbl, hbk⟩
  rw [hb]
  exact congrArg some (eq_of_nodup_keys key hnd hbl ha hbk)

lemma findKey_append {l₁ l₂ : List α} {k : κ} :
    findKey key (l₁ ++ l₂) k = (findKey key l₁ k).or (findKey key l₂ k) := by
  simp [findKey, List.find?_append]

lemma findKey_filter_of_pred {l : List α} {q : α → Bool} {k : κ}
    (hq : ∀ a, key a = k → q a = true) :
    findKey key (l.filter q) k = findKey key l k := by
  induction l with
  | nil => rfl
  | cons a rest ih =>
    by_cases hk : key a = k
    · rw [List.filter_cons, hq a hk]
      simp [findKey, List.find?_cons, decide_eq_true hk]
    · rw [List.filter_cons]
      cases hqa : q a with
      | false =>
        simp only [Bool.false_eq_true, if_false]
        rw [ih, findKey, findKey, List.find?_cons, decide_eq_false hk]
      | true =>
        simp only [if_true]
        rw [findKey, findKey, List.find?_cons, List.find?_cons, decide_eq_false hk]
        exact ih

lemma countP_key_eq_one {l : List α} (hnd : (l.map key).Nodup) {o : α} (ho : o ∈ l) :
    l.countP (fun a => decide (key a = key o)) = 1 := by
  induction l with
  | nil => cases ho
  | cons a rest ih =>
    rw [List.map_cons, List.nodup_cons] at hnd
    rcases List.mem_cons.mp ho with rfl | ho2
    · have h0 : rest.countP (fun b => decide (key b = key o)) = 0 :=
        List.countP_eq_zero.mpr (fun b hb => by
          simp only [decide_eq_true_eq]
          exact fun hkey => hnd.1 (hkey ▸ List.mem_map_of_mem key hb))
      rw [List.countP_cons, h0]
      simp
    · have hka : ¬(key a = key o) := fun h => hnd.1 (h ▸ List.mem_map_of_mem key ho2)
      rw [List.countP_cons, ih hnd.2 ho2]
      simp [hka]

end ListLemmas

section HolderDiffLemmas

lemma ph_mem_newPositions {old new : List HolderRec} {ts : String} {r : HolderRec} :
    r ∈ (position_holders_diff_tail old new ts).newPositions ↔
      r ∈ dropDupKeepLast holderKey new ∧ findKey holderKey old (holderKey r) = none := by
  simp [position_holders_diff_tail, List.mem_filter, Option.isNone_iff_eq_none]

lemma ph_mem_changedPositions {old new : List HolderRec} {ts : String} {r : HolderRec} :
    r ∈ (position_holders_diff_tail old new ts).changedPositions ↔
      r ∈ dropDupKeepLast holderKey new ∧
        ∃ o, findKey holderKey old (holderKey r) = some o ∧ holderChanged r o = true := by
  simp only [position_holders_diff_tail, List.mem_filterMap, Option.bind_eq_some]
  constructor
  · rintro ⟨a, ha, o, hf, hif⟩
    cases hc : holderChanged a o with
    | false => rw [hc] at hif; simp at hif
    | true =>
      rw [hc] at hif
      simp only [if_true] at hif
      cases hif
      exact ⟨ha, o, hf, hc⟩
  · rintro ⟨hr, o, hf, hc⟩
    exact ⟨r, hr, o, hf, by rw [hc]; simp⟩

lemma ph_mem_droppedPositions {old new : List HolderRec} {ts : String} {d : HolderRec} :
    d ∈ (position_holders_diff_tail old new ts).droppedPositions ↔
      ∃ o, o ∈ old ∧
        findKey holderKey (dropDupKeepLast holderKey new) (holderKey o) = none ∧
        0 < o.position_percent ∧ d = { o with position_percent := 0 } := by
  simp only [position_holders_diff_tail, List.mem_map, List.mem_filter, Bool.and_eq_true,
    Option.isNone_iff_eq_none, decide_eq_true_eq]
  constructor
  · rintro ⟨o, ⟨ho, hf, hp⟩, rfl⟩
    exact ⟨o, ho, hf, hp, rfl⟩
  · rintro ⟨o, ho, hf, hp, rfl⟩
    exact ⟨o, ⟨ho, hf, hp⟩, rfl⟩

lemma ph_newRows_eq (old new : List HolderRec) (ts : String) :
    (position_holders_diff_tail old new ts).newRows =
      ((position_holders_diff_tail old new ts).newPositions ++
        (position_holders_diff_tail old new ts).changedPositions ++
        (position_holders_diff_tail old new ts).droppedPositions).map
        (fun r => { toHolderRec := { r with position_percent := round5 r.position_percent },
                    timestamp := ts }) := rfl

lemma holderKey_zeroed (o : HolderRec) :
    holderKey { o with position_percent := 0 } = holderKey o := rfl

lemma holderKey_rounded (r : HolderRec) :
    holderKey { r with position_percent := round5 r.position_percent } = holderKey r := rfl

lemma round5_zero : round5 0 = 0 := by
  simp [round5]

lemma round5_close (q : ℚ) : |q - round5 q| ≤ 1 / 200000 := by
  have h := abs_sub_round (q * 100000)
  unfold round5
  have heq : q - (round (q * 100000) : ℚ) / 100000 =
      (q * 100000 - round (q * 100000)) / 100000 := by ring
  rw [heq, abs_div]
  rw [abs_of_pos (by norm_num : (0 : ℚ) < 100000)]
  rw [div_le_div_iff (by norm_num) (by norm_num : (0 : ℚ) < 200000)]
  linarith [h]

lemma holderChanged_round5_self (r : HolderRec) :
    holderChanged r { r with position_percent := round5 r.position_percent } = false := by
  simp only [holderChanged, decide_eq_false_iff_not, not_or, not_lt, ne_eq, not_not]
  refine ⟨?_, trivial⟩
  have h := round5_close r.position_percent
  calc |r.position_percent - round5 r.position_percent| ≤ 1 / 200000 := h
    _ ≤ 1 / 10000 := by norm_num

end HolderDiffLemmas

section AggDiffLemmas

lemma ag_mem_newLeis {old new : List AggRec} {ts : String} {r : AggRec} :
    r ∈ (database_diff_tail old new ts).newLeis ↔
      r ∈ dropDupKeepLast aggKey new ∧ findKey aggKey old (aggKey r) = none := by
  simp [database_diff_tail, List.mem_filter, Option.isNone_iff_eq_none]

lemma ag_mem_changedPositions {old new : List AggRec} {ts : String} {r : AggRec} :
    r ∈ (database_diff_tail old new ts).changedPositions ↔
      r ∈ dropDupKeepLast aggKey new ∧
        ∃ o, findKey aggKey old (aggKey r) = some o ∧ aggChanged r o = true := by
  simp only [database_diff_tail, List.mem_filterMap, Option.bind_eq_some]
  constructor
  · rintro ⟨a, ha, o, hf, hif⟩
    cases hc : aggChanged a o with
    | false => rw [hc] at hif; simp at hif
    | true =>
      rw [hc] at hif
      simp only [if_true] at hif
      cases hif
      exact ⟨ha, o, hf, hc⟩
  · rintro ⟨hr, o, hf, hc⟩
    exact ⟨r, hr, o, hf, by rw [hc]; simp⟩

lemma ag_newRows_eq (old new : List AggRec) (ts : String) :
    (database_diff_tail old new ts).newRows =
      ((database_diff_tail old new ts).newLeis ++
        (database_diff_tail old new ts).changedPositions).map
        (fun r => { toAggRec := { r with position_percent := round5 r.position_percent },
                    timestamp := ts }) := rfl

lemma aggKey_rounded (r : AggRec) :
    aggKey { r with position_percent := round5 r.position_percent } = aggKey r := rfl

/-- The aggregated diff never emits a dropped row: every inserted row carries a
key present in the current deduplicated snapshot. -/
lemma ag_newRows_keys_current (old new : List AggRec) (ts : String) :
    ∀ c ∈ (database_diff_tail old new ts).newRows,
      aggKey c.toAggRec ∈ (dropDupKeepLast aggKey new).map aggKey := by
  intro c hc
  rw [ag_newRows_eq] at hc
  rcases List.mem_map.mp hc with ⟨r, hr, rfl⟩
  have hcur : r ∈ dropDupKeepLast aggKey new := by
    rcases List.mem_append.mp hr with h | h
    · exact (ag_mem_newLeis.mp h).1
    · exact (ag_mem_changedPositions.mp h).1
  exact List.mem_map.mpr ⟨r, hcur, rfl⟩

end AggDiffLemmas

/-- The intended diff is key-partitioning: in the change sets that the
unreachable tail of `update_position_holders` would produce, no key appears in
more than one of `new_positions`, `changed_positions` and `dropped_positions`
(so every key would be in exactly one of the three sets or in none). -/
lemma partition_position_holders_tail (oldLatest newData0 : List HolderRec)
    (ts : String) (k : String × String × String) :
    ((if k ∈ (position_holders_diff_tail oldLatest newData0 ts).newPositions.map holderKey
        then 1 else 0) +
      (if k ∈ (position_holders_diff_tail oldLatest newData0 ts).changedPositions.map holderKey
        then 1 else 0) +
      (if k ∈ (position_holders_diff_tail oldLatest newData0 ts).droppedPositions.map holderKey
        then 1 else 0) : ℕ) ≤ 1 := by
  have hNew : k ∈ (position_holders_diff_tail oldLatest newData0 ts).newPositions.map holderKey →
      findKey holderKey oldLatest k = none ∧
        (findKey holderKey (dropDupKeepLast holderKey newData0) k).isSome := by
    intro hk
    rcases List.mem_map.mp hk with ⟨r, hr, rfl⟩
    rcases ph_mem_newPositions.mp hr with ⟨hcur, hnone⟩
    exact ⟨hnone, findKey_isSome_of_mem holderKey hcur⟩
  have hChg : k ∈ (position_holders_diff_tail oldLatest newData0 ts).changedPositions.map holderKey →
      (findKey holderKey oldLatest k).isSome ∧
        (findKey holderKey (dropDupKeepLast holderKey newData0) k).isSome := by
    intro hk
    rcases List.mem_map.mp hk with ⟨r, hr, rfl⟩
    rcases ph_mem_changedPositions.mp hr with ⟨hcur, o, hsome, _⟩
    exact ⟨by rw [hsome]; rfl, findKey_isSome_of_mem holderKey hcur⟩
  have hDrp : k ∈ (position_holders_diff_tail oldLatest newData0 ts).droppedPositions.map holderKey →
      findKey holderKey (dropDupKeepLast holderKey newData0) k = none := by
    intro hk
    rcases List.mem_map.mp hk with ⟨d, hd, rfl⟩
    rcases ph_mem_droppedPositions.mp hd with ⟨o, _, hnone, _, rfl⟩
    rw [holderKey_zeroed]
    exact hnone
  have exNC :
      ¬(k ∈ (position_holders_diff_tail oldLatest newData0 ts).newPositions.map holderKey ∧
        k ∈ (position_holders_diff_tail oldLatest newData0 ts).changedPositions.map holderKey) := by
    rintro ⟨ha, hb⟩
    rcases Option.isSome_iff_exists.mp (hChg hb).1 with ⟨o, ho⟩
    rw [(hNew ha).1] at ho
    cases ho
  have exND :
      ¬(k ∈ (position_holders_diff_tail oldLatest newData0 ts).newPositions.map holderKey ∧
        k ∈ (position_holders_diff_tail oldLatest newData0 ts).droppedPositions.map holderKey) := by
    rintro ⟨ha, hc⟩
    rcases Option.isSome_iff_exists.mp (hNew ha).2 with ⟨o, ho⟩
    rw [hDrp hc] at ho
    cases ho
  have exCD :
      ¬(k ∈ (position_holders_diff_tail oldLatest newData0 ts).changedPositions.map holderKey ∧
        k ∈ (position_holders_diff_tail oldLatest newData0 ts).droppedPositions.map holderKey) := by
    rintro ⟨hb, hc⟩
    rcases Option.isSome_iff_exists.mp (hChg hb).2 with ⟨o, ho⟩
    rw [hDrp hc] at ho
    cases ho
  by_cases h1 : k ∈ (position_holders_diff_tail oldLatest newData0 ts).newPositions.map holderKey
  · have hb : ¬k ∈ (position_holders_diff_tail oldLatest newData0 ts).changedPositions.map holderKey :=
      fun hb => exNC ⟨h1, hb⟩
    have hc : ¬k ∈ (position_holders_diff_tail oldLatest newData0 ts).droppedPositions.map holderKey :=
      fun hc => exND ⟨h1, hc⟩
    simp [h1, hb, hc]
  · by_cases h2 :
        k ∈ (position_holders_diff_tail oldLatest newData0 ts).changedPositions.map holderKey
    · have hc :
          ¬k ∈ (position_holders_diff_tail oldLatest newData0 ts).droppedPositions.map holderKey :=
        fun hc => exCD ⟨h2, hc⟩
      simp [h1, h2, hc]
    · by_cases h3 :
          k ∈ (position_holders_diff_tail oldLatest newData0 ts).droppedPositions.map holderKey <;>
        simp [h1, h2, h3]

/-- Even the intended (unreachable) diff tail does not drop every disappeared
key: a key of the key-deduplicated previous state absent from the current
deduplicated snapshot yields exactly one dropped record — percent forced to
`0`, stamped with the cycle timestamp — only when its prior
`position_percent` is strictly positive (the `> 0.0` filter of line 352),
none when it is `≤ 0`; and the aggregated tail computes no dropped rows at
all. -/
lemma dropped_policy_position_holders_tail (oldLatest newData0 : List HolderRec) (ts : String)
    (hnd : (oldLatest.map holderKey).Nodup) (o : HolderRec) (ho : o ∈ oldLatest)
    (habs : findKey holderKey (dropDupKeepLast holderKey newData0) (holderKey o) = none) :
    (0 < o.position_percent →
      (position_holders_diff_tail oldLatest newData0 ts).droppedPositions.countP
          (fun d => decide (holderKey d = holderKey o)) = 1 ∧
        ({ o with position_percent := 0 } : HolderRec) ∈
          (position_holders_diff_tail oldLatest newData0 ts).droppedPositions ∧
        ({ toHolderRec := { o with position_percent := 0 }, timestamp := ts } : HolderChange) ∈
          (position_holders_diff_tail oldLatest newData0 ts).newRows) ∧
      (o.position_percent ≤ 0 →
        (position_holders_diff_tail oldLatest newData0 ts).droppedPositions.countP
            (fun d => decide (holderKey d = holderKey o)) = 0) ∧
      (∀ (aggOld aggNew : List AggRec) (ts2 : String) (c : AggChange),
        c ∈ (database_diff_tail aggOld aggNew ts2).newRows →
          aggKey c.toAggRec ∈ (dropDupKeepLast aggKey aggNew).map aggKey) := by
  refine ⟨fun hp => ?_, fun hp => ?_, fun aggOld aggNew ts2 c hc =>
    ag_newRows_keys_current aggOld aggNew ts2 c hc⟩
  · have hdmem : ({ o with position_percent := 0 } : HolderRec) ∈
        (position_holders_diff_tail oldLatest newData0 ts).droppedPositions :=
      ph_mem_droppedPositions.mpr ⟨o, ho, habs, hp, rfl⟩
    refine ⟨?_, hdmem, ?_⟩
    · have hcount :
          (position_holders_diff_tail oldLatest newData0 ts).droppedPositions.countP
              (fun d => decide (holderKey d = holderKey o)) =
            (oldLatest.filter (fun a =>
                (findKey holderKey (dropDupKeepLast holderKey newData0)
                    (holderKey a)).isNone &&
                  decide ((0 : ℚ) < a.position_percent))).countP
              (fun a => decide (holderKey a = holderKey o)) := by
        simp only [position_holders_diff_tail, List.countP_map]
        rfl
      rw [hcount]
      have hsub : ((oldLatest.filter (fun a =>
          (findKey holderKey (dropDupKeepLast holderKey newData0) (holderKey a)).isNone &&
            decide ((0 : ℚ) < a.position_percent))).map holderKey).Nodup :=
        ((List.filter_sublist oldLatest).map holderKey).nodup hnd
      have hofil : o ∈ oldLatest.filter (fun a =>
          (findKey holderKey (dropDupKeepLast holderKey newData0) (holderKey a)).isNone &&
            decide ((0 : ℚ) < a.position_percent)) := by
        rw [List.mem_filter]
        refine ⟨ho, ?_⟩
        rw [habs]
        simp [hp]
      exact countP_key_eq_one holderKey hsub hofil
    · rw [ph_newRows_eq]
      have hm : ({ o with position_percent := 0 } : HolderRec) ∈
          ((position_holders_diff_tail oldLatest newData0 ts).newPositions ++
            (position_holders_diff_tail oldLatest newData0 ts).changedPositions ++
            (position_holders_diff_tail oldLatest newData0 ts).droppedPositions) :=
        List.mem_append_right _ hdmem
      have hmap := List.mem_map_of_mem
        (fun r : HolderRec =>
          ({ toHolderRec := { r with position_percent := round5 r.position_percent },
             timestamp := ts } : HolderChange)) hm
      simpa [round5_zero] using hmap
  · refine List.countP_eq_zero.mpr (fun d hd => ?_)
    rcases ph_mem_droppedPositions.mp hd with ⟨o2, ho2, _, hp2, rfl⟩
    simp only [decide_eq_true_eq, holderKey_zeroed]
    intro hkey
    have : o2 = o := eq_of_nodup_keys holderKey hnd ho2 ho hkey
    subst this
    exact absurd hp (not_le.mpr hp2)

/-- Had the tail run, a key whose numeric field equals the prior value
(difference `0`, well within the `0.0001` tolerance) would still be flagged as
changed and emitted, because the compared date string changed (lines 333-336
flag on `perc_diff > 0.0001` OR a date change).  Unreachable behaviour,
recorded as evidence about the intended changed test. -/
lemma tail_flags_date_change_within_tolerance :
    |(⟨"E", "I", "S1", 5, "2024-01-02"⟩ : HolderRec).position_percent -
        (⟨"E", "I", "S1", 5, "2024-01-01"⟩ : HolderRec).position_percent| ≤ 1 / 10000 ∧
      (position_holders_diff_tail [⟨"E", "I", "S1", 5, "2024-01-01"⟩]
          [⟨"E", "I", "S1", 5, "2024-01-02"⟩] "t1").changedPositions =
        [⟨"E", "I", "S1", 5, "2024-01-02"⟩] := by
  constructor
  · simp
  · have hc : holderChanged ⟨"E", "I", "S1", 5, "2024-01-02"⟩
        ⟨"E", "I", "S1", 5, "2024-01-01"⟩ = true := by
      simp [holderChanged]
    simp [position_holders_diff_tail, dropDupKeepLast, findKey, hc, holderKey,
      List.filterMap_cons]

/-- In the intended (unreachable) tail, a key present in both snapshots would
not be flagged as changed, and would receive no record of any kind, only when
its numeric field is within the `0.0001` tolerance AND its compared date
string is unchanged. -/
lemma tolerance_and_date_gate_tail
    (oldLatest newData0 : List HolderRec) (ts : String) (r o : HolderRec)
    (hr : r ∈ dropDupKeepLast holderKey newData0)
    (hf : findKey holderKey oldLatest (holderKey r) = some o)
    (hperc : |r.position_percent - o.position_percent| ≤ 1 / 10000)
    (hdate : r.position_date = o.position_date) :
    holderChanged r o = false ∧
      holderKey r ∉
        (position_holders_diff_tail oldLatest newData0 ts).changedPositions.map holderKey ∧
      holderKey r ∉
        (position_holders_diff_tail oldLatest newData0 ts).newPositions.map holderKey ∧
      holderKey r ∉
        (position_holders_diff_tail oldLatest newData0 ts).droppedPositions.map holderKey := by
  have hcf : holderChanged r o = false := by
    simp only [holderChanged, decide_eq_false_iff_not, not_or, not_lt, ne_eq, not_not]
    exact ⟨hperc, hdate⟩
  refine ⟨hcf, ?_, ?_, ?_⟩
  · intro hk
    rcases List.mem_map.mp hk with ⟨r2, hr2, hkey⟩
    rcases ph_mem_changedPositions.mp hr2 with ⟨hr2cur, o2, hf2, hc2⟩
    have hrr : r2 = r :=
      eq_of_nodup_keys holderKey (nodup_keys_dropDupKeepLast holderKey newData0) hr2cur hr hkey
    subst hrr
    rw [hf] at hf2
    cases hf2
    rw [hcf] at hc2
    cases hc2
  · intro hk
    rcases List.mem_map.mp hk with ⟨r2, hr2, hkey⟩
    have hnone := (ph_mem_newPositions.mp hr2).2
    rw [hkey, hf] at hnone
    cases hnone
  · intro hk
    rcases List.mem_map.mp hk with ⟨d, hd, hkey⟩
    rcases ph_mem_droppedPositions.mp hd with ⟨o2, _, hnone, _, rfl⟩
    rw [holderKey_zeroed] at hkey
    have hs := findKey_isSome_of_mem holderKey hr
    rw [← hkey] at hs
    rw [hnone] at hs
    cases hs

/-- The intended (unreachable) diff tail is idempotent: if the insert batch it
would produce is applied to the latest-known state (each emitted row becoming
the new latest value for its key), diffing the same snapshot against the
updated state would emit nothing — all three change sets and the insert batch
empty. -/
lemma idempotent_position_holders_tail (oldLatest newData0 : List HolderRec)
    (ts ts2 : String) :
    (position_holders_diff_tail
        (applyChanges oldLatest (position_holders_diff_tail oldLatest newData0 ts).newRows)
        newData0 ts2).newPositions = [] ∧
      (position_holders_diff_tail
          (applyChanges oldLatest (position_holders_diff_tail oldLatest newData0 ts).newRows)
          newData0 ts2).changedPositions = [] ∧
      (position_holders_diff_tail
          (applyChanges oldLatest (position_holders_diff_tail oldLatest newData0 ts).newRows)
          newData0 ts2).droppedPositions = [] ∧
      (position_holders_diff_tail
          (applyChanges oldLatest (position_holders_diff_tail oldLatest newData0 ts).newRows)
          newData0 ts2).newRows = [] := by
  have houtRecs : (position_holders_diff_tail oldLatest newData0 ts).newRows.map
        (fun c => c.toHolderRec) =
      ((position_holders_diff_tail oldLatest newData0 ts).newPositions ++
        (position_holders_diff_tail oldLatest newData0 ts).changedPositions ++
        (position_holders_diff_tail oldLatest newData0 ts).droppedPositions).map
        (fun r => { r with position_percent := round5 r.position_percent }) := by
    rw [ph_newRows_eq, List.map_map]
    rfl
  -- every emitted key is a key of the applied batch
  have hemit : ∀ r1 : HolderRec,
      r1 ∈ ((position_holders_diff_tail oldLatest newData0 ts).newPositions ++
        (position_holders_diff_tail oldLatest newData0 ts).changedPositions ++
        (position_holders_diff_tail oldLatest newData0 ts).droppedPositions) →
      (findKey holderKey ((position_holders_diff_tail oldLatest newData0 ts).newRows.map
        (fun c => c.toHolderRec)) (holderKey r1)).isSome := by
    intro r1 h
    have hmem : ({ r1 with position_percent := round5 r1.position_percent } : HolderRec) ∈
        (position_holders_diff_tail oldLatest newData0 ts).newRows.map
          (fun c => c.toHolderRec) := by
      rw [houtRecs]
      exact List.mem_map_of_mem _ h
    have hsome := findKey_isSome_of_mem holderKey hmem
    rwa [holderKey_rounded] at hsome
  -- lookup in the updated state
  have hlookup : ∀ k : String × String × String,
      findKey holderKey
          (applyChanges oldLatest (position_holders_diff_tail oldLatest newData0 ts).newRows) k =
        (findKey holderKey ((position_holders_diff_tail oldLatest newData0 ts).newRows.map
            (fun c => c.toHolderRec)) k).or
          (findKey holderKey
            (oldLatest.filter (fun o =>
              (findKey holderKey ((position_holders_diff_tail oldLatest newData0 ts).newRows.map
                (fun c => c.toHolderRec)) (holderKey o)).isNone)) k) := by
    intro k
    rw [applyChanges, findKey_append]
  have hlookup_none : ∀ k : String × String × String,
      findKey holderKey ((position_holders_diff_tail oldLatest newData0 ts).newRows.map
        (fun c => c.toHolderRec)) k = none →
      findKey holderKey
          (applyChanges oldLatest (position_holders_diff_tail oldLatest newData0 ts).newRows) k =
        findKey holderKey oldLatest k := by
    intro k hk
    rw [hlookup k, hk, Option.none_or]
    exact findKey_filter_of_pred holderKey (fun a ha => by rw [ha, hk]; rfl)
  -- characterize membership in the applied batch
  have hout_mem : ∀ x : HolderRec,
      x ∈ (position_holders_diff_tail oldLatest newData0 ts).newRows.map
        (fun c => c.toHolderRec) →
      ∃ r1, (r1 ∈ (position_holders_diff_tail oldLatest newData0 ts).newPositions ∨
          r1 ∈ (position_holders_diff_tail oldLatest newData0 ts).changedPositions ∨
          r1 ∈ (position_holders_diff_tail oldLatest newData0 ts).droppedPositions) ∧
        x = { r1 with position_percent := round5 r1.position_percent } := by
    intro x hx
    rw [houtRecs] at hx
    rcases List.mem_map.mp hx with ⟨r1, hr1, rfl⟩
    rcases List.mem_append.mp hr1 with h | h
    · rcases List.mem_append.mp h with h | h
      · exact ⟨r1, Or.inl h, rfl⟩
      · exact ⟨r1, Or.inr (Or.inl h), rfl⟩
    · exact ⟨r1, Or.inr (Or.inr h), rfl⟩
  have hA : (position_holders_diff_tail
      (applyChanges oldLatest (position_holders_diff_tail oldLatest newData0 ts).newRows)
      newData0 ts2).newPositions = [] := by
    rw [List.eq_nil_iff_forall_not_mem]
    intro r hmem
    rcases ph_mem_newPositions.mp hmem with ⟨hrcur, hnone⟩
    cases hout : findKey holderKey
        ((position_holders_diff_tail oldLatest newData0 ts).newRows.map
          (fun c => c.toHolderRec)) (holderKey r) with
    | some x => rw [hlookup _, hout, Option.or_some] at hnone; cases hnone
    | none =>
      rw [hlookup_none _ hout] at hnone
      have hnew : r ∈ (position_holders_diff_tail oldLatest newData0 ts).newPositions :=
        ph_mem_newPositions.mpr ⟨hrcur, hnone⟩
      have := hemit r (List.mem_append_left _ (List.mem_append_left _ hnew))
      rw [hout] at this
      cases this
  have hB : (position_holders_diff_tail
      (applyChanges oldLatest (position_holders_diff_tail oldLatest newData0 ts).newRows)
      newData0 ts2).changedPositions = [] := by
    rw [List.eq_nil_iff_forall_not_mem]
    intro r hmem
    rcases ph_mem_changedPositions.mp hmem with ⟨hrcur, o2, hf2, hc2⟩
    cases hout : findKey holderKey
        ((position_holders_diff_tail oldLatest newData0 ts).newRows.map
          (fun c => c.toHolderRec)) (holderKey r) with
    | some x =>
      rw [hlookup _, hout, Option.or_some] at hf2
      cases hf2
      rcases findKey_mem holderKey hout with ⟨hxmem, hxkey⟩
      rcases hout_mem _ hxmem with ⟨r1, hr1, hxr1⟩
      have hkey1 : holderKey r1 = holderKey r := by
        rw [← hxkey, hxr1, holderKey_rounded]
      rcases hr1 with h | h | h
      · have hr1cur := (ph_mem_newPositions.mp h).1
        have : r1 = r := eq_of_nodup_keys holderKey
          (nodup_keys_dropDupKeepLast holderKey newData0) hr1cur hrcur hkey1
        subst this
        rw [hxr1, holderChanged_round5_self r1] at hc2
        cases hc2
      · have hr1cur := (ph_mem_changedPositions.mp h).1
        have : r1 = r := eq_of_nodup_keys holderKey
          (nodup_keys_dropDupKeepLast holderKey newData0) hr1cur hrcur hkey1
        subst this
        rw [hxr1, holderChanged_round5_self r1] at hc2
        cases hc2
      · rcases ph_mem_droppedPositions.mp h with ⟨o1, _, hnone1, _, rfl⟩
        rw [holderKey_zeroed] at hkey1
        have hs := findKey_isSome_of_mem holderKey hrcur
        rw [← hkey1, hnone1] at hs
        cases hs
    | none =>
      rw [hlookup_none _ hout] at hf2
      have hchg : r ∈ (position_holders_diff_tail oldLatest newData0 ts).changedPositions :=
        ph_mem_changedPositions.mpr ⟨hrcur, o2, hf2, hc2⟩
      have := hemit r (List.mem_append_left _ (List.mem_append_right _ hchg))
      rw [hout] at this
      cases this
  have hC : (position_holders_diff_tail
      (applyChanges oldLatest (position_holders_diff_tail oldLatest newData0 ts).newRows)
      newData0 ts2).droppedPositions = [] := by
    rw [List.eq_nil_iff_forall_not_mem]
    intro d hmem
    rcases ph_mem_droppedPositions.mp hmem with ⟨o2, ho2, hnone2, hp2, rfl⟩
    rcases List.mem_append.mp ho2 with hro | hro
    · rcases hout_mem _ hro with ⟨r1, hr1, ho2r1⟩
      rcases hr1 with h | h | h
      · have hr1cur := (ph_mem_newPositions.mp h).1
        have hs := findKey_isSome_of_mem holderKey hr1cur
        have hkeq : holderKey o2 = holderKey r1 := by rw [ho2r1, holderKey_rounded]
        rw [← hkeq, hnone2] at hs
        cases hs
      · have hr1cur := (ph_mem_changedPositions.mp h).1
        have hs := findKey_isSome_of_mem holderKey hr1cur
        have hkeq : holderKey o2 = holderKey r1 := by rw [ho2r1, holderKey_rounded]
        rw [← hkeq, hnone2] at hs
        cases hs
      · rcases ph_mem_droppedPositions.mp h with ⟨o1, _, _, _, rfl⟩
        rw [ho2r1] at hp2
        simp only [round5_zero] at hp2
        exact absurd hp2 (lt_irrefl 0)
    · rcases List.mem_filter.mp hro with ⟨ho2old, ho2pred⟩
      have hdrop : ({ o2 with position_percent := 0 } : HolderRec) ∈
          (position_holders_diff_tail oldLatest newData0 ts).droppedPositions :=
        ph_mem_droppedPositions.mpr ⟨o2, ho2old, hnone2, hp2, rfl⟩
      have hs := hemit _ (List.mem_append_right _ hdrop)
      rw [holderKey_zeroed] at hs
      rw [Option.isNone_iff_eq_none.mp ho2pred] at hs
      cases hs
  refine ⟨hA, hB, hC, ?_⟩
  rw [ph_newRows_eq, hA, hB, hC]
  rfl

section RetryLemmas

lemma retryGo_error_iff {α : Type} (outcomes : ℕ → Option α) :
    ∀ (remaining attempt : ℕ),
      (retryGo outcomes attempt remaining = Except.error () ↔
        ∀ j < max remaining 1, outcomes (attempt + j) = none)
  | 0, attempt => by
    cases h : outcomes attempt with
    | none =>
      constructor
      · intro _ j hj
        have hj0 : j = 0 := by omega
        subst hj0
        simpa using h
      · intro _
        simp [retryGo, h]
    | some v =>
      constructor
      · intro herr
        simp [retryGo, h] at herr
      · intro hall
        have hv := hall 0 (by omega)
        rw [Nat.add_zero, h] at hv
        cases hv
  | (n + 1), attempt => by
    cases h : outcomes attempt with
    | some v =>
      constructor
      · intro herr
        simp [retryGo, h] at herr
      · intro hall
        have hv := hall 0 (by omega)
        rw [Nat.add_zero, h] at hv
        cases hv
    | none =>
      by_cases hn : n = 0
      · subst hn
        constructor
        · intro _ j hj
          have hj0 : j = 0 := by omega
          subst hj0
          simpa using h
        · intro _
          simp [retryGo, h]
      · have ih := retryGo_error_iff outcomes n (attempt + 1)
        constructor
        · intro herr j hj
          have herr2 : retryGo outcomes (attempt + 1) n = Except.error () := by
            simpa [retryGo, h, hn] using herr
          rcases Nat.eq_zero_or_pos j with rfl | hpos
          · simpa using h
          · have hv := ih.mp herr2 (j - 1) (by omega)
            rwa [show attempt + 1 + (j - 1) = attempt + j by omega] at hv
        · intro hall
          have herr2 : retryGo outcomes (attempt + 1) n = Except.error () := by
            apply ih.mpr
            intro i hi
            have hv := hall (i + 1) (by omega)
            rwa [show attempt + (i + 1) = attempt + 1 + i by omega] at hv
          simp [retryGo, h, hn, herr2]

end RetryLemmas

section MaxLemmas

lemma le_foldl_max (rest : List ℤ) :
    ∀ a x : ℤ, x = a ∨ x ∈ rest → x ≤ rest.foldl max a := by
  induction rest with
  | nil =>
    rintro a x (heq | h)
    · exact heq.le
    · cases h
  | cons b rest ih =>
    rintro a x (heq | h)
    · rw [List.foldl_cons]
      calc x = a := heq
        _ ≤ max a b := le_max_left a b
        _ ≤ List.foldl max (max a b) rest := ih (max a b) (max a b) (Or.inl rfl)
    · rcases List.mem_cons.mp h with heq | h2
      · rw [List.foldl_cons]
        calc x = b := heq
          _ ≤ max a b := le_max_right a b
          _ ≤ List.foldl max (max a b) rest := ih (max a b) (max a b) (Or.inl rfl)
      · rw [List.foldl_cons]
        exact ih (max a b) x (Or.inr h2)

lemma max?_ge_of_mem {l : List ℤ} {x : ℤ} (hx : x ∈ l) :
    ∃ m, l.max? = some m ∧ x ≤ m := by
  cases l with
  | nil => cases hx
  | cons a rest =>
    refine ⟨rest.foldl max a, rfl, ?_⟩
    rcases List.mem_cons.mp hx with heq | h
    · exact le_foldl_max rest a x (Or.inl heq)
    · exact le_foldl_max rest a x (Or.inr h)

end MaxLemmas

section SteamLemmas

lemma steam_update_skip {store : List SteamGame} {nowHour l : ℤ}
    {prelim : List PrelimGame} {ccuMap : String → ℕ} {writeDb : Bool}
    (hl : get_latest_timestamp store = some l) (hr : nowHour - l < 1) :
    update_steam_top_sellers store nowHour prelim ccuMap writeDb =
      if prelim.isEmpty then (store, [])
      else (store, assembleGames nowHour prelim ccuMap) := by
  unfold update_steam_top_sellers
  rw [hl]
  cases hpe : prelim.isEmpty <;> simp [hpe, hr]

lemma steam_update_store_cases (store : List SteamGame) (nowHour : ℤ)
    (prelim : List PrelimGame) (ccuMap : String → ℕ) (writeDb : Bool) :
    (update_steam_top_sellers store nowHour prelim ccuMap writeDb).1 = store ∨
      ((update_steam_top_sellers store nowHour prelim ccuMap writeDb).1 =
          store ++ assembleGames nowHour prelim ccuMap ∧
        assembleGames nowHour prelim ccuMap ≠ []) := by
  unfold update_steam_top_sellers
  cases hpe : prelim.isEmpty with
  | true => left; simp [hpe]
  | false =>
    cases hl : get_latest_timestamp store with
    | some l =>
      by_cases hr : nowHour - l < 1
      · left; simp [hpe, hl, hr]
      · by_cases hw : (writeDb && !(assembleGames nowHour prelim ccuMap).isEmpty) = true
        · right
          refine ⟨by simp [hpe, hl, hr, hw], fun hnil => ?_⟩
          rw [hnil] at hw
          simp at hw
        · left; simp [hpe, hl, hr, hw]
    | none =>
      by_cases hw : (writeDb && !(assembleGames nowHour prelim ccuMap).isEmpty) = true
      · right
        refine ⟨by simp [hpe, hl, hw], fun hnil => ?_⟩
        rw [hnil] at hw
        simp at hw
      · left; simp [hpe, hl, hw]

lemma assembleGames_timestamp {nowHour : ℤ} {prelim : List PrelimGame}
    {ccuMap : String → ℕ} {x : SteamGame} (hx : x ∈ assembleGames nowHour prelim ccuMap) :
    x.timestamp = nowHour := by
  unfold assembleGames at hx
  rcases List.mem_map.mp hx with ⟨p, _, rfl⟩
  rfl

end SteamLemmas

/-- C2 counterexample: with `base_delay = 5`, `max_delay = 120`, attempt `0`
and jitter draw `9/10` (a legal value of `random.random()`), the computed
delay is `7`, strictly above the claimed cap `min(120, 5 * 2^0) = 5`: the
jitter factor in the code is `0.5 + random.random() ∈ [0.5, 1.5)`, not a
factor in `[0.5, 1.0)`. -/
theorem backoff_delay_exceeds_cap :
    0 ≤ (9 / 10 : ℚ) ∧ (9 / 10 : ℚ) < 1 ∧
      min (120 : ℚ) (5 * 2 ^ 0) < backoff_delay 5 120 0 (9 / 10) := by
  refine ⟨by norm_num, by norm_num, ?_⟩
  norm_num [backoff_delay]

/-- C2 amended: for every attempt `n` and every jitter draw in `[0, 1)`, the
delay lies in `[cap / 2, 3 * cap / 2)` where `cap = min(max_delay,
base_delay * 2^n)`; in particular the delay can exceed the cap by up to a
factor `3/2`, but never drops below half the cap. -/
theorem backoff_delay_bounds (base_delay max_delay jitter : ℚ) (attempt : ℕ)
    (hb : 0 < base_delay) (hm : 0 < max_delay) (hj0 : 0 ≤ jitter) (hj1 : jitter < 1) :
    min max_delay (base_delay * 2 ^ attempt) / 2 ≤
        backoff_delay base_delay max_delay attempt jitter ∧
      backoff_delay base_delay max_delay attempt jitter <
        3 / 2 * min max_delay (base_delay * 2 ^ attempt) := by
  have hcap : 0 < min max_delay (base_delay * 2 ^ attempt) :=
    lt_min hm (by positivity)
  unfold backoff_delay
  constructor
  · nlinarith [mul_nonneg hcap.le hj0]
  · nlinarith [mul_lt_mul_of_pos_left hj1 hcap]

/-- Spot check of `backoff_delay_bounds` at a concrete input. -/
theorem backoff_delay_bounds_spot :
    min (120 : ℚ) (5 * 2 ^ 0) / 2 ≤ backoff_delay 5 120 0 0 :=
  (backoff_delay_bounds 5 120 0 0 (by decide) (by decide) (by decide) (by decide)).1

/-- C3 counterexample: five consecutive transient errors make the
`aiohttp_retry` wrapper (with `retries = 5`, the value used throughout the
repository) re-raise the last exception to its caller instead of retrying
forever. -/
theorem retry_reraises_after_five_failures :
    retryRun 5 (fun _ => (none : Option Unit)) = Except.error () := rfl

/-- C3 amended: the `aiohttp_retry` wrapper re-raises to its caller exactly
when all of its (at most `retries`, at least one) calls raise a transient
error — it does not retry indefinitely; it is the surrounding
`update_fi_from_web` loop that catches every non-cancellation exception and
continues, exiting only on the external cancellation signal. -/
theorem retry_finite_and_loop_exits_only_on_cancel (retries : ℕ)
    (outcomes : ℕ → Option Unit) :
    (retryRun retries outcomes = Except.error () ↔
        ∀ j < max retries 1, outcomes j = none) ∧
      ∀ (stored : Option String) (env : CycleEnv),
        (fi_cycle stored env).2.2 = LoopOutcome.stopped ↔ env.cancelled = true := by
  constructor
  · have h := retryGo_error_iff outcomes retries 0
    simpa only [Nat.zero_add] using h
  · intro stored env
    unfold fi_cycle
    by_cases hc : env.cancelled
    · simp [hc]
    · rw [Bool.not_eq_true] at hc
      cases hres : (is_timestamp_updated stored env.fetched).1 with
      | none => simp [hc, hres]
      | some t =>
        cases hfail : env.fail <;> simp [hc, hres, hfail]

/-- C1 counterexample: a cycle that fetches marker "2024-01-02 11:00"
(differing from the stored "2024-01-01 10:00") and then raises while
downloading — before any persist — still ends with the stored marker advanced
to the new value: `is_timestamp_updated` writes the marker file (line 530 of
`fi_blankning.py`) before the download, processing and persistence steps run,
so a failing cycle does not leave the marker unchanged. -/
theorem marker_advanced_despite_failure :
    (⟨some "2024-01-02 11:00", FailPoint.atDownload, false⟩ : CycleEnv).fail ≠
        FailPoint.ok ∧
      FiEff.persistEff ∉
        (fi_cycle (some "2024-01-01 10:00")
          ⟨some "2024-01-02 11:00", FailPoint.atDownload, false⟩).2.1 ∧
      (fi_cycle (some "2024-01-01 10:00")
          ⟨some "2024-01-02 11:00", FailPoint.atDownload, false⟩).1 ≠
        some "2024-01-01 10:00" := by
  decide

/-- C1 amended: the stored marker is advanced to the fetched timestamp as soon
as a change is detected — during the marker check, before the download,
normalize, diff, persist and notify steps — regardless of whether and where
the rest of the cycle fails; when no new timestamp is obtained (failed fetch
or unchanged value) the marker is left unchanged. -/
theorem marker_written_at_detection (stored : Option String) (env : CycleEnv)
    (hnc : env.cancelled = false) :
    (∀ t, env.fetched = some t → stored ≠ some t → (fi_cycle stored env).1 = some t) ∧
      (env.fetched = none → (fi_cycle stored env).1 = stored) ∧
      (∀ t, env.fetched = some t → stored = some t → (fi_cycle stored env).1 = stored) := by
  have h1 : (fi_cycle stored env).1 = (is_timestamp_updated stored env.fetched).2 := by
    unfold fi_cycle
    rw [hnc]
    simp only [Bool.false_eq_true, if_false]
    cases hres : (is_timestamp_updated stored env.fetched).1 with
    | none => rfl
    | some t => cases env.fail <;> rfl
  refine ⟨fun t hf hne => ?_, fun hf => ?_, fun t hf heq => ?_⟩
  · rw [h1, hf]
    simp only [is_timestamp_updated]
    rw [if_neg hne]
  · rw [h1, hf]
    simp only [is_timestamp_updated]
  · rw [h1, hf]
    simp only [is_timestamp_updated]
    rw [if_pos heq]

/-- Spot check of `marker_written_at_detection` at a concrete input. -/
theorem marker_written_at_detection_spot :
    (fi_cycle (some "2024-01-01 10:00")
        ⟨some "2024-01-02 11:00", FailPoint.atDownload, false⟩).1 =
      some "2024-01-02 11:00" :=
  (marker_written_at_detection (some "2024-01-01 10:00")
      ⟨some "2024-01-02 11:00", FailPoint.atDownload, false⟩ rfl).1
    "2024-01-02 11:00" rfl (by decide)

/-- C8: the change gate.  When the fetched timestamp equals the stored marker,
the cycle performs exactly the marker check and the sleep: no download, no
normalizer, no database read, no diff, no persist, no notify; the marker is
unchanged and the loop continues. -/
theorem gate_skips_cycle (stored : Option String) (env : CycleEnv) (t : String)
    (hnc : env.cancelled = false) (hf : env.fetched = some t) (heq : stored = some t) :
    fi_cycle stored env =
      (stored, [FiEff.gateCheck, FiEff.sleepEff], LoopOutcome.again) := by
  unfold fi_cycle is_timestamp_updated
  rw [hnc, hf, heq]
  simp

/-- Spot check of `gate_skips_cycle` at a concrete input. -/
theorem gate_skips_cycle_spot :
    fi_cycle (some "2024-01-01 10:00") ⟨some "2024-01-01 10:00", FailPoint.ok, false⟩ =
      (some "2024-01-01 10:00", [FiEff.gateCheck, FiEff.sleepEff], LoopOutcome.again) :=
  gate_skips_cycle (some "2024-01-01 10:00")
    ⟨some "2024-01-01 10:00", FailPoint.ok, false⟩ "2024-01-01 10:00" rfl rfl rfl

/-- C9 counterexample: Steam top-seller rows are stamped with the wall-clock
hour at processing time (`steam.py` line 244: `ts =
datetime.now().strftime('%Y-%m-%d %H')`), not with any remote marker: the
persisted stamp follows the wall-clock argument, so re-running one hour later
stamps the same fetched data differently. -/
theorem steam_rows_stamped_with_wall_clock :
    (assembleGames 474336 [⟨1, "570", "Dota 2", ""⟩] (fun _ => 0)).map
        (fun g => g.timestamp) = [474336] ∧
      (assembleGames 474337 [⟨1, "570", "Dota 2", ""⟩] (fun _ => 0)).map
        (fun g => g.timestamp) = [474337] ∧
      (474336 : ℤ) ≠ 474337 := by
  refine ⟨rfl, rfl, by decide⟩

/-- C9 amended: the Steam dataset stamps every persisted row with the
wall-clock hour at processing time, and the FI datasets persist no rows at
all — each FI diff run either returns the empty batch (empty snapshot) or
raises the pandas `KeyError` before any insert — so no persisted row anywhere
is stamped with a remote marker. -/
theorem persisted_row_timestamps (oldH newH : List HolderRec) (oldA newA : List AggRec)
    (ts : String) (nowHour : ℤ) (prelim : List PrelimGame) (ccuMap : String → ℕ) :
    ((assembleGames nowHour prelim ccuMap).all
        (fun g => decide (g.timestamp = nowHour)) = true) ∧
      (update_position_holders oldH newH ts = Except.ok [] ∨
        update_position_holders oldH newH ts =
          Except.error PandasError.keyErrorPositionPercent) ∧
      (update_database_diff oldA newA ts = Except.ok [] ∨
        update_database_diff oldA newA ts =
          Except.error PandasError.keyErrorPositionPercent) := by
  refine ⟨?_, ?_, ?_⟩
  · rw [List.all_eq_true]
    intro g hg
    rcases List.mem_map.mp hg with ⟨p, _, rfl⟩
    exact decide_eq_true rfl
  · unfold update_position_holders
    cases h : newH.isEmpty with
    | true => left; rw [if_pos rfl]
    | false => right; rw [if_neg (by simp)]
  · unfold update_database_diff
    cases h : newA.isEmpty with
    | true => left; rw [if_pos rfl]
    | false => right; rw [if_neg (by simp)]

/-- C10: the hourly write-dedupe of `update_steam_top_sellers`.  First half:
when the most recent stored timestamp is less than one hour before the current
hour, the routine returns the assembled rows without touching the store.
Second half: if a call at hour `nowHour` changed the store, any further call
at the same hour leaves the store unchanged, so the table never receives two
snapshot batches within one clock hour. -/
theorem hourly_dedupe_steam (store : List SteamGame) (nowHour : ℤ)
    (prelim prelim2 : List PrelimGame) (ccuMap ccu2 : String → ℕ) (writeDb w2 : Bool) :
    (∀ l, get_latest_timestamp store = some l → nowHour - l < 1 →
      (update_steam_top_sellers store nowHour prelim ccuMap writeDb).1 = store ∧
        (prelim ≠ [] →
          (update_steam_top_sellers store nowHour prelim ccuMap writeDb).2 =
            assembleGames nowHour prelim ccuMap)) ∧
      ((update_steam_top_sellers store nowHour prelim ccuMap writeDb).1 ≠ store →
        (update_steam_top_sellers
            (update_steam_top_sellers store nowHour prelim ccuMap writeDb).1
            nowHour prelim2 ccu2 w2).1 =
          (update_steam_top_sellers store nowHour prelim ccuMap writeDb).1) := by
  constructor
  · intro l hl hrecent
    rw [steam_update_skip hl hrecent]
    cases hpe : prelim.isEmpty with
    | true =>
      refine ⟨rfl, fun hne => absurd (List.isEmpty_iff.mp hpe) hne⟩
    | false =>
      exact ⟨rfl, fun _ => rfl⟩
  · intro hchanged
    rcases steam_update_store_cases store nowHour prelim ccuMap writeDb with heq | ⟨heq, hne⟩
    · exact absurd heq hchanged
    · rw [heq]
      rcases List.exists_mem_of_ne_nil _ hne with ⟨x, hx⟩
      have hxmem : x.timestamp ∈
          ((store ++ assembleGames nowHour prelim ccuMap).map (fun r => r.timestamp)) :=
        List.mem_map_of_mem _ (List.mem_append_right store hx)
      rcases max?_ge_of_mem hxmem with ⟨m, hm, hxm⟩
      have hmge : nowHour ≤ m := by
        rw [← assembleGames_timestamp hx]
        exact hxm
      rw [steam_update_skip
        (show get_latest_timestamp (store ++ assembleGames nowHour prelim ccuMap) = some m
          from hm) (by omega)]
      cases hpe2 : prelim2.isEmpty <;> rfl

/-- Spot check of `hourly_dedupe_steam` at a concrete input. -/
theorem hourly_dedupe_steam_spot :
    (update_steam_top_sellers [⟨474336, 1, "570", "Dota 2", "", 0⟩] 474336
        [⟨1, "730", "CS2", ""⟩] (fun _ => 0) true).1 =
      [⟨474336, 1, "570", "Dota 2", "", 0⟩] :=
  ((hourly_dedupe_steam [⟨474336, 1, "570", "Dota 2", "", 0⟩] 474336
      [⟨1, "730", "CS2", ""⟩] [] (fun _ => 0) (fun _ => 0) true true).1
    474336 rfl (by decide)).1

/-- Spot check of `retry_finite_and_loop_exits_only_on_cancel`: the loop stops
exactly on the cancellation signal. -/
theorem retry_finite_and_loop_exits_spot :
    (fi_cycle (some "2024-01-01 10:00")
        ⟨some "2024-01-01 10:00", FailPoint.ok, true⟩).2.2 = LoopOutcome.stopped :=
  ((retry_finite_and_loop_exits_only_on_cancel 5 (fun _ => none)).2
    (some "2024-01-01 10:00") ⟨some "2024-01-01 10:00", FailPoint.ok, true⟩).mpr rfl

/-- Spot check of `persisted_row_timestamps` at a concrete input. -/
theorem persisted_row_timestamps_spot :
    ((assembleGames 474336 [⟨1, "570", "Dota 2", ""⟩] (fun _ => 0)).all
        (fun g => decide (g.timestamp = 474336)) = true) ∧
      (update_position_holders [] [] "t" = Except.ok [] ∨
        update_position_holders [] [] "t" =
          Except.error PandasError.keyErrorPositionPercent) :=
  ⟨(persisted_row_timestamps [] [] [] [] "t" 474336 [⟨1, "570", "Dota 2", ""⟩]
      (fun _ => 0)).1,
    (persisted_row_timestamps [] [] [] [] "t" 474336 [⟨1, "570", "Dota 2", ""⟩]
      (fun _ => 0)).2.1⟩

/-- C4 counterexample: a key present in the previous latest-known state and
absent from the (empty) current snapshot yields NO dropped Change Record —
`update_position_holders` returns the empty batch through the empty-input
guard of `fi_blankning.py` lines 267-269 — not exactly one record with the
absence value. -/
theorem no_dropped_record_for_disappeared_key :
    (⟨"E", "I", "S1", 1, "2024-01-01"⟩ : HolderRec) ∈
        ([⟨"E", "I", "S1", 1, "2024-01-01"⟩] : List HolderRec) ∧
      ([] : List HolderRec) = [] ∧
      update_position_holders [⟨"E", "I", "S1", 1, "2024-01-01"⟩] []
          "2024-02-02 10:00" = Except.ok [] :=
  ⟨List.mem_cons_self _ _, rfl, rfl⟩

/-- C4 amended: neither FI diff function ever emits a dropped Change Record —
or any other row.  Every run either returns the empty batch or raises the
pandas `KeyError` of line 322 (respectively 451) before the dropped set is
computed, and it returns the empty batch exactly when the new snapshot is
empty. -/
theorem no_dropped_records_emitted (oldLatest newData0 : List HolderRec) (ts : String)
    (oldA newA : List AggRec) (tsA : String) :
    (update_position_holders oldLatest newData0 ts = Except.ok [] ∨
        update_position_holders oldLatest newData0 ts =
          Except.error PandasError.keyErrorPositionPercent) ∧
      (update_position_holders oldLatest newData0 ts = Except.ok [] ↔ newData0 = []) ∧
      (update_database_diff oldA newA tsA = Except.ok [] ∨
        update_database_diff oldA newA tsA =
          Except.error PandasError.keyErrorPositionPercent) ∧
      (update_database_diff oldA newA tsA = Except.ok [] ↔ newA = []) := by
  unfold update_position_holders update_database_diff
  refine ⟨?_, ?_, ?_, ?_⟩
  · cases h : newData0.isEmpty with
    | true => left; rw [if_pos rfl]
    | false => right; rw [if_neg (by simp)]
  · cases h : newData0.isEmpty with
    | true =>
      rw [if_pos rfl]
      simp [List.isEmpty_iff.mp h]
    | false =>
      rw [if_neg (by simp)]
      constructor
      · intro hc
        cases hc
      · intro hnil
        rw [hnil] at h
        cases h
  · cases h : newA.isEmpty with
    | true => left; rw [if_pos rfl]
    | false => right; rw [if_neg (by simp)]
  · cases h : newA.isEmpty with
    | true =>
      rw [if_pos rfl]
      simp [List.isEmpty_iff.mp h]
    | false =>
      rw [if_neg (by simp)]
      constructor
      · intro hc
        cases hc
      · intro hnil
        rw [hnil] at h
        cases h

/-- Spot check of `no_dropped_records_emitted` at concrete inputs: a nonempty
snapshot makes `update_position_holders` raise the `KeyError`. -/
theorem no_dropped_records_emitted_spot :
    update_position_holders [] [⟨"E", "I", "S1", 1, "2024-01-01"⟩] "t" =
      Except.error PandasError.keyErrorPositionPercent := by
  rcases (no_dropped_records_emitted [] [⟨"E", "I", "S1", 1, "2024-01-01"⟩] "t"
      [] [] "t").1 with h | h
  · exact absurd ((no_dropped_records_emitted [] [⟨"E", "I", "S1", 1, "2024-01-01"⟩] "t"
      [] [] "t").2.1.mp h) (by decide)
  · exact h

/-- C5 (code bug): the three change sets are never built.  On any nonempty
snapshot `update_position_holders` raises the pandas `KeyError` of line 322 —
the merge of line 320 suffixed the shared `position_percent` column to
`_new`/`_old` but the selection still names it unsuffixed — before
`new_positions`, `changed_positions` or `dropped_positions` exist, so the
key-disjointness the claim (and the spec) describes is a property of the
intended but unreachable diff (`position_holders_diff_tail`), which
`partition_position_holders_tail` shows does satisfy it. -/
theorem partition_sets_never_built :
    update_position_holders [⟨"E", "I", "S1", 1, "2024-01-01"⟩]
        [⟨"E", "I", "S1", 2, "2024-01-02"⟩] "2024-02-02 10:00" =
      Except.error PandasError.keyErrorPositionPercent := rfl

/-- C6 (code bug): the diff-apply-rediff cycle never runs.  Both diff
functions raise the pandas `KeyError` (lines 322 and 451) on every nonempty
snapshot, before emitting or inserting anything, so `diff(S, last_known)`
cannot complete even once; the idempotence the claim (and the spec) describes
holds of the intended but unreachable diff (`position_holders_diff_tail`),
as `idempotent_position_holders_tail` shows. -/
theorem idempotence_cycle_never_runs :
    update_position_holders [] [⟨"A", "I", "S", 5, "2024-01-05"⟩] "t1" =
        Except.error PandasError.keyErrorPositionPercent ∧
      update_database_diff []
          [⟨"Paradox Interactive AB (publ)", "LEI1", 3, "2024-01-05"⟩] "t1" =
        Except.error PandasError.keyErrorPositionPercent :=
  ⟨rfl, rfl⟩

end GamingInvestBot
